import Mathlib

/-!
Shallow embedding of the snap-cast video sharing application.

The definitions below translate the TypeScript source files
src/lib/utils.ts, src/lib/hooks/useScreenRecording.ts and the server
actions file (src/unnamed/part_005) into Lean.  Pure functions become
Lean functions, fallible asynchronous code returns Except, and the
database query conditions of the server actions are modelled as boolean
predicates over an explicit list of rows.  JavaScript numbers that only
ever hold integers are modelled as Int or Nat.
-/

namespace SnapCast

/- ---------------------------------------------------------------
   withErrorHandling (src/lib/utils.ts lines 102-117)
   --------------------------------------------------------------- -/

/-- A value thrown by JavaScript code: either an Error object carrying a
message (the `error instanceof Error` branch) or any other thrown value. -/
inductive Thrown where
  | error (message : String)
  | nonError
deriving DecidableEq, Repr

/-- The message string the catch block of withErrorHandling extracts from a
thrown value: the Error message, or "Unknown error occurred" otherwise. -/
def errorMessageOf : Thrown → String
  | Thrown.error m => m
  | Thrown.nonError => "Unknown error occurred"

/-- Embedding of withErrorHandling (src/lib/utils.ts lines 102-117).
An async function is modelled as a function into Except Thrown T.  The
wrapper awaits fn, returns its result on success, and on a throw returns
the extracted message string in place of a value of the declared result
type (the code casts the string with "as unknown as T"; the model keeps
the two possibilities apart with a sum type).  The wrapper itself never
throws, so its result type is again Except Thrown but only the ok
constructor is ever produced. -/
def withErrorHandling {A T : Type} (fn : A → Except Thrown T) (args : A) :
    Except Thrown (T ⊕ String) :=
  match fn args with
  | Except.ok r => Except.ok (Sum.inl r)
  | Except.error e => Except.ok (Sum.inr (errorMessageOf e))

/- ---------------------------------------------------------------
   generatePagination (src/lib/utils.ts lines 156-183)
   --------------------------------------------------------------- -/

/-- An entry of the pagination array: a page number or the "..." marker. -/
inductive PageEntry where
  | num (n : Int)
  | dots
deriving DecidableEq, Repr

/-- Embedding of generatePagination (src/lib/utils.ts lines 156-183).
Array.from with a negative length yields an empty array, hence toNat. -/
def generatePagination (currentPage totalPages : Int) : List PageEntry :=
  if totalPages ≤ 7 then
    (List.range totalPages.toNat).map (fun i => PageEntry.num ((i : Int) + 1))
  else if currentPage ≤ 3 then
    [PageEntry.num 1, PageEntry.num 2, PageEntry.num 3, PageEntry.num 4,
     PageEntry.num 5, PageEntry.dots, PageEntry.num totalPages]
  else if currentPage ≥ totalPages - 2 then
    [PageEntry.num 1, PageEntry.dots, PageEntry.num (totalPages - 4),
     PageEntry.num (totalPages - 3), PageEntry.num (totalPages - 2),
     PageEntry.num (totalPages - 1), PageEntry.num totalPages]
  else
    [PageEntry.num 1, PageEntry.dots, PageEntry.num (currentPage - 1),
     PageEntry.num currentPage, PageEntry.num (currentPage + 1),
     PageEntry.dots, PageEntry.num totalPages]

/-- The numeric entries of a pagination array, in order. -/
def pageNums (l : List PageEntry) : List Int :=
  l.filterMap (fun e => match e with
    | PageEntry.num n => some n
    | PageEntry.dots => none)

/-- A pagination array marks each omitted gap with "...": adjacent numeric
entries are consecutive, and every "..." sits between two numeric entries
that differ by more than one. -/
def marksGaps : List PageEntry → Prop
  | PageEntry.num a :: PageEntry.num b :: rest =>
      b = a + 1 ∧ marksGaps (PageEntry.num b :: rest)
  | PageEntry.num a :: PageEntry.dots :: PageEntry.num b :: rest =>
      a + 1 < b ∧ marksGaps (PageEntry.num b :: rest)
  | [] => True
  | [_] => True
  | _ => False

/- ---------------------------------------------------------------
   updateURLParams (src/lib/utils.ts lines 26-43)
   --------------------------------------------------------------- -/

/-- A URLSearchParams object, modelled as its ordered list of key/value
pairs (duplicate keys allowed, as in the browser class). -/
def SearchParams : Type := List (String × String)

/-- URLSearchParams.delete: removes every pair whose key is the given name. -/
def deleteParam (params : SearchParams) (name : String) : SearchParams :=
  params.filter (fun p => !(p.1 == name))

/-- URLSearchParams.set: replaces the value of the first pair with the
given key and removes the remaining pairs with that key; if no pair has
the key, appends the new pair at the end. -/
def setParam : SearchParams → String → String → SearchParams
  | [], name, value => [(name, value)]
  | p :: rest, name, value =>
      if p.1 == name then (name, value) :: deleteParam rest name
      else p :: setParam rest name value

/-- The forEach loop of updateURLParams over Object.entries(updates).
A value of none models null or undefined; a JavaScript string is truthy
exactly when it is non-empty, so some "" takes the delete branch too. -/
def applyUpdates : SearchParams → List (String × Option String) → SearchParams
  | params, [] => params
  | params, (name, value) :: rest =>
      applyUpdates
        (match value with
          | some v => if v == "" then deleteParam params name else setParam params name v
          | none => deleteParam params name)
        rest

/-- URLSearchParams.toString, with percent-encoding of keys and values
elided (the claims under study only concern which pairs are present). -/
def serializeParams (params : SearchParams) : String :=
  String.intercalate "&" (params.map (fun p => p.1 ++ "=" ++ p.2))

/-- Embedding of updateURLParams (src/lib/utils.ts lines 26-43).  The code
first copies currentParams (new URLSearchParams(currentParams.toString()))
and mutates only the copy; the model returns the built URL together with
the post-call state of the currentParams argument, which is therefore the
unchanged input. -/
def updateURLParams (currentParams : SearchParams)
    (updates : List (String × Option String)) (basePath : String) :
    String × SearchParams :=
  let params : SearchParams := currentParams
  (basePath ++ "?" ++ serializeParams (applyUpdates params updates), currentParams)

/- ---------------------------------------------------------------
   Media primitives shared by the recording code
   --------------------------------------------------------------- -/

/-- A MediaStreamTrack, identified abstractly. -/
structure MediaStreamTrack where
  id : Nat
deriving DecidableEq, Repr

/-- A MediaStream, modelled as its list of tracks. -/
structure MediaStream where
  tracks : List MediaStreamTrack
deriving DecidableEq, Repr

/- ---------------------------------------------------------------
   createAudioMixer (src/lib/utils.ts lines 238-258)
   --------------------------------------------------------------- -/

/-- Which input stream a mixer connection comes from. -/
inductive StreamTag where
  | display
  | mic
deriving DecidableEq, Repr

/-- The gain value 0.7 applied to the display stream. -/
def displayGain : Rat := 7 / 10

/-- The gain value 1.5 applied to the microphone stream. -/
def micGain : Rat := 3 / 2

/-- The MediaStreamDestination node returned by createAudioMixer, observed
through the list of (source stream, gain value) connections made into it. -/
structure MixerDestination where
  connections : List (StreamTag × Rat)
deriving Repr

/-- Embedding of createAudioMixer (src/lib/utils.ts lines 238-258).  The
code returns null when there is neither display audio nor a microphone
stream; otherwise it creates a destination and connects the display
stream through a gain node of 0.7 when hasDisplayAudio holds and the
microphone stream through a gain node of 1.5 when micStream is non-null. -/
def createAudioMixer (displayStream : MediaStream)
    (micStream : Option MediaStream) (hasDisplayAudio : Bool) :
    Option MixerDestination :=
  if !hasDisplayAudio && micStream.isNone then none
  else
    some
      { connections :=
          (if hasDisplayAudio then [(StreamTag.display, displayGain)] else []) ++
          (match micStream with
            | some _ => [(StreamTag.mic, micGain)]
            | none => []) }

/- ---------------------------------------------------------------
   cleanupRecording (src/lib/utils.ts lines 306-319) and the
   useScreenRecording hook (src/lib/hooks/useScreenRecording.ts)
   --------------------------------------------------------------- -/

/-- The state attribute of a MediaRecorder. -/
inductive RecorderState where
  | inactive
  | recording
  | paused
deriving DecidableEq, Repr

/-- A MediaRecorder, observed through its state attribute. -/
structure MediaRecorder where
  state : RecorderState
deriving DecidableEq, Repr

/-- The externally visible effects of cleanupRecording: whether stop() was
invoked on the recorder, and the tracks on which stop() was invoked. -/
structure CleanupActions where
  recorderStopped : Bool
  stoppedTracks : List MediaStreamTrack
deriving DecidableEq, Repr

/-- Embedding of cleanupRecording (src/lib/utils.ts lines 306-319).  When
the recorder is null the guard recorder?.state !== "inactive" is true
(undefined is not "inactive") but the optional call recorder?.stop() is a
no-op, so no stop call is recorded.  Every track of the combined stream
(when non-null) and of every original stream is stopped. -/
def cleanupRecording (recorder : Option MediaRecorder)
    (stream : Option MediaStream) (originalStreams : List MediaStream) :
    CleanupActions :=
  { recorderStopped :=
      match recorder with
      | some r => !(r.state == RecorderState.inactive)
      | none => false
  , stoppedTracks :=
      (match stream with
        | some s => s.tracks
        | none => []) ++
      (originalStreams.map MediaStream.tracks).flatten }

/-- A recorded Blob, identified abstractly. -/
structure Blob where
  id : Nat
deriving DecidableEq, Repr

/-- The state object of the useScreenRecording hook. -/
structure RecordingState where
  isRecording : Bool
  recordedBlob : Option Blob
  recordedVideoUrl : String
  recordingDuration : Nat
deriving DecidableEq, Repr

/-- The initial state of the useScreenRecording hook
(src/lib/hooks/useScreenRecording.ts lines 19-24). -/
def initialRecordingState : RecordingState :=
  { isRecording := false
  , recordedBlob := none
  , recordedVideoUrl := ""
  , recordingDuration := 0 }

/-- The externally visible outcome of resetRecording: the cleanup actions
of the inner stopRecording call, the object URL that was revoked (if any),
and the hook state after the final setState. -/
structure ResetOutcome where
  cleanup : CleanupActions
  revokedUrl : Option String
  newState : RecordingState
deriving DecidableEq, Repr

/-- Embedding of resetRecording (src/lib/hooks/useScreenRecording.ts lines
142-152).  It calls stopRecording, which delegates to cleanupRecording on
the current recorder and stream refs and sets isRecording to false; then
it revokes the recorded video object URL when the stored URL is truthy
(a non-empty string) and restores the state to its initial value. -/
def resetRecording (st : RecordingState) (recorder : Option MediaRecorder)
    (stream : Option MediaStream) (originalStreams : List MediaStream) :
    ResetOutcome :=
  { cleanup := cleanupRecording recorder stream originalStreams
  , revokedUrl := if st.recordedVideoUrl == "" then none else some st.recordedVideoUrl
  , newState := initialRecordingState }

/- ---------------------------------------------------------------
   apiFetch (src/lib/utils.ts lines 53-99)
   --------------------------------------------------------------- -/

/-- A fetch Response, modelled with its ok flag and the value its body
parses to as JSON (the type of JSON values is left abstract). -/
structure FetchResponse (α : Type) where
  ok : Bool
  body : α
deriving DecidableEq, Repr

/-- The value apiFetch resolves with: the literal true returned for DELETE
or non-JSON requests, or the JSON-parsed response body. -/
inductive ApiValue (α : Type) where
  | boolTrue
  | json (v : α)
deriving DecidableEq, Repr

/-- The outcome of a successful apiFetch call: the resolved value together
with whether the response body was read (response.json() was awaited). -/
structure ApiOutcome (α : Type) where
  value : ApiValue α
  bodyRead : Bool
deriving DecidableEq, Repr

/-- Embedding of apiFetch (src/lib/utils.ts lines 53-99) from the point
where the response has arrived.  When response.ok is false the function
throws (the interpolated response.text() promise stringifies to
"[object Promise]"); when the method is "DELETE" or expectJson is false
it resolves to the literal true without reading the body; otherwise it
resolves to the JSON-parsed body. -/
def apiFetch {α : Type} (method : String) (expectJson : Bool)
    (response : FetchResponse α) : Except String (ApiOutcome α) :=
  if !response.ok then
    Except.error "API error [object Promise]"
  else if method == "DELETE" || !expectJson then
    Except.ok { value := ApiValue.boolTrue, bodyRead := false }
  else
    Except.ok { value := ApiValue.json response.body, bodyRead := true }

/- ---------------------------------------------------------------
   startRecording (src/lib/hooks/useScreenRecording.ts lines 73-122)
   --------------------------------------------------------------- -/

/-- The value produced by getMediaStreams (src/lib/utils.ts lines 199-218). -/
structure MediaStreams where
  displayStream : MediaStream
  micStream : Option MediaStream
  hasDisplayAudio : Bool
deriving Repr

/-- Embedding of startRecording (src/lib/hooks/useScreenRecording.ts lines
73-122).  The fallible steps inside the try block are modelled by Except
oracles in source order: getMediaStreams, the AudioContext and audio
mixer construction, the MediaRecorder construction inside setupRecording,
and recorder.start(1000).  The leading stopRecording call sets
isRecording to false and leaves the other state fields alone; on any
throw the catch block returns false with the state as it stood after
that call, and on success the final setState sets isRecording to true
and the function returns true. -/
def startRecording (prior : RecordingState)
    (mediaResult : Except Unit MediaStreams)
    (audioResult : Except Unit Unit)
    (recorderResult : Except Unit Unit)
    (startResult : Except Unit Unit) : Bool × RecordingState :=
  let afterStop : RecordingState := { prior with isRecording := false }
  match mediaResult with
  | Except.error _ => (false, afterStop)
  | Except.ok _ =>
    match audioResult with
    | Except.error _ => (false, afterStop)
    | Except.ok _ =>
      match recorderResult with
      | Except.error _ => (false, afterStop)
      | Except.ok _ =>
        match startResult with
        | Except.error _ => (false, afterStop)
        | Except.ok _ => (true, { afterStop with isRecording := true })

/- ---------------------------------------------------------------
   parseTranscript (src/lib/utils.ts lines 332-366)
   --------------------------------------------------------------- -/

/-- The character class of the JavaScript regular expression escape
backslash-s, restricted to the ASCII whitespace characters. -/
def jsWhitespace (c : Char) : Bool :=
  c == ' ' || c == '\t' || c == '\n' || c == '\r' || c == '\x0b' || c == '\x0c'

/-- String.prototype.trim, on character lists. -/
def trimChars (cs : List Char) : List Char :=
  ((cs.dropWhile jsWhitespace).reverse.dropWhile jsWhitespace).reverse

/-- The replace of the anchored regular expression WEBVTT followed by any
whitespace with the empty string (src/lib/utils.ts line 333). -/
def stripWebVTT (cs : List Char) : List Char :=
  if cs.take 6 = "WEBVTT".toList then (cs.drop 6).dropWhile jsWhitespace else cs

/-- String.prototype.split on the newline character, keeping empty pieces. -/
def splitLines : List Char → List (List Char)
  | [] => [[]]
  | c :: rest =>
      if c == '\n' then [] :: splitLines rest
      else
        match splitLines rest with
        | [] => [[c]]
        | l :: ls => (c :: l) :: ls

/-- Character-by-character test of a list of character predicates against
the front of a character list. -/
def matchesPat : List (Char → Bool) → List Char → Bool
  | [], _ => true
  | _ :: _, [] => false
  | p :: ps, c :: cs => p c && matchesPat ps cs

/-- The pattern of one HH:MM:SS group of the timestamp regular expression. -/
def timePat : List (Char → Bool) :=
  [Char.isDigit, Char.isDigit, (· == ':'), Char.isDigit, Char.isDigit,
   (· == ':'), Char.isDigit, Char.isDigit]

/-- The full timestamp regular expression of src/lib/utils.ts lines
340-342: HH:MM:SS.mmm, one whitespace, the arrow, one whitespace,
HH:MM:SS.mmm. -/
def timestampPat : List (Char → Bool) :=
  timePat ++ [(· == '.'), Char.isDigit, Char.isDigit, Char.isDigit,
    jsWhitespace, (· == '-'), (· == '-'), (· == '>'), jsWhitespace] ++
  timePat ++ [(· == '.'), Char.isDigit, Char.isDigit, Char.isDigit]

/-- Leftmost match of the timestamp pattern in a line; on success returns
the first capture group, the eight characters of the starting HH:MM:SS. -/
def findTimestamp : List Char → Option (List Char)
  | [] => none
  | c :: cs =>
      if matchesPat timestampPat (c :: cs) then some ((c :: cs).take 8)
      else findTimestamp cs

/-- An entry produced by parseTranscript. -/
structure TranscriptEntry where
  time : String
  text : String
deriving DecidableEq, Repr

/-- The mutable state of the parseTranscript loop: the accumulated result
array, the pending text lines, and the pending start time. -/
structure ParseState where
  result : List TranscriptEntry
  tempText : List String
  startTime : Option String
deriving DecidableEq, Repr

/-- Array.prototype.join with a single space. -/
def joinSpace (l : List String) : String :=
  String.intercalate " " l

/-- One iteration of the for loop of parseTranscript (src/lib/utils.ts
lines 338-359): on a timestamp match, flush the pending text when a start
time is pending, then record the new start time; otherwise accumulate the
trimmed line when non-empty.  After either branch, flush when three or
more lines are pending together with a start time, clearing the time. -/
def parseLine (st : ParseState) (line : List Char) : ParseState :=
  let trimmed := trimChars line
  let afterBranch : ParseState :=
    match findTimestamp trimmed with
    | some t =>
        match st.startTime with
        | some s =>
            if st.tempText ≠ [] then
              { result := st.result ++ [{ time := s, text := joinSpace st.tempText }]
              , tempText := []
              , startTime := some (String.mk t) }
            else { st with startTime := some (String.mk t) }
        | none => { st with startTime := some (String.mk t) }
    | none =>
        if trimmed ≠ [] then { st with tempText := st.tempText ++ [String.mk trimmed] }
        else st
  match afterBranch.startTime with
  | some s =>
      if afterBranch.tempText.length ≥ 3 then
        { result := afterBranch.result ++ [{ time := s, text := joinSpace afterBranch.tempText }]
        , tempText := []
        , startTime := none }
      else afterBranch
  | none => afterBranch

/-- Embedding of parseTranscript (src/lib/utils.ts lines 332-366). -/
def parseTranscript (transcript : String) : List TranscriptEntry :=
  let lines := splitLines (stripWebVTT transcript.toList)
  let final := lines.foldl parseLine { result := [], tempText := [], startTime := none }
  match final.startTime with
  | some s =>
      if final.tempText ≠ [] then
        final.result ++ [{ time := s, text := joinSpace final.tempText }]
      else final.result
  | none => final.result

/- ---------------------------------------------------------------
   The video listing server actions (src/unnamed/part_005)
   --------------------------------------------------------------- -/

/-- A row of the videos table, with the columns the studied queries read.
The schema file itself is not under src/; the columns are taken from
their uses in src/unnamed/part_005 and src/lib/utils.ts. -/
structure Video where
  id : String
  videoId : String
  title : String
  userId : String
  visibility : String
  views : Int
  createdAt : Int
deriving DecidableEq, Repr

/-- A row of the user table, with the columns getAllVideosByUser selects. -/
structure UserRec where
  id : String
  name : String
  image : String
  email : String
deriving DecidableEq, Repr

/-- Test whether the first list starts with the second. -/
def startsWithChars : List Char → List Char → Bool
  | _, [] => true
  | [], _ :: _ => false
  | c :: cs, d :: ds => c == d && startsWithChars cs ds

/-- Test whether the second list occurs inside the first. -/
def hasSubstringChars : List Char → List Char → Bool
  | [], needle => needle.isEmpty
  | c :: cs, needle => startsWithChars (c :: cs) needle || hasSubstringChars cs needle

/-- The normalization both sides of doesTitleMatch apply: lowercase, then
remove every hyphen, dot and space (src/lib/utils.ts lines 397-401). -/
def normalizeForSearch (s : String) : List Char :=
  (s.toLower.toList).filter (fun c => !(c == '-' || c == '.' || c == ' '))

/-- Embedding of doesTitleMatch (src/lib/utils.ts lines 397-401): the SQL
expression lowercases the title and removes hyphens, dots and spaces, and
tests ILIKE against the likewise-normalized query wrapped in percent
wildcards, that is a case-insensitive containment test (wildcard
characters inside the query itself are not modelled). -/
def doesTitleMatch (title searchQuery : String) : Bool :=
  hasSubstringChars (normalizeForSearch title) (normalizeForSearch searchQuery)

/-- The SQL ILIKE containment test used by getAllVideosByUser on the raw
title: case-insensitive substring (again without wildcard characters
inside the query). -/
def ilikeContains (title searchQuery : String) : Bool :=
  hasSubstringChars (title.toLower.toList) (searchQuery.toLower.toList)

/-- The canSeeTheVideos condition of getAllVideos (src/unnamed/part_005
lines 165-168): visibility is public, or the row belongs to the session
user.  When there is no session the code compares against undefined, a
SQL comparison no row satisfies, modelled as false. -/
def canSeeTheVideos (currentUserId : Option String) (v : Video) : Bool :=
  v.visibility == "public" ||
    (match currentUserId with
      | some u => v.userId == u
      | none => false)

/-- The whereCondition of getAllVideos (src/unnamed/part_005 lines
170-172): the visibility condition, conjoined with the title match when
the trimmed search query is non-empty (a truthy string). -/
def whereCondition (currentUserId : Option String) (searchQuery : String)
    (v : Video) : Bool :=
  if trimChars searchQuery.toList ≠ [] then
    canSeeTheVideos currentUserId v && doesTitleMatch v.title searchQuery
  else canSeeTheVideos currentUserId v

/-- Embedding of getOrderByClause (src/lib/utils.ts lines 129-141) as the
less-or-equal comparison the SQL ORDER BY clause sorts by. -/
def getOrderByClause (filter : String) : Video → Video → Bool :=
  if filter == "Most Viewed" then fun a b => b.views ≤ a.views
  else if filter == "Least Viewed" then fun a b => a.views ≤ b.views
  else if filter == "Oldest First" then fun a b => a.createdAt ≤ b.createdAt
  else fun a b => b.createdAt ≤ a.createdAt

/-- The orderBy argument of the two listing queries: getOrderByClause when
a sort filter is given (a falsy empty string also falls to the default
branch of getOrderByClause, with the same result), createdAt descending
otherwise. -/
def orderClause (sortFilter : Option String) : Video → Video → Bool :=
  match sortFilter with
  | some f => getOrderByClause f
  | none => fun a b => b.createdAt ≤ a.createdAt

/-- Insertion of an element into a sorted list, for the ORDER BY model. -/
def insertSorted {α : Type} (le : α → α → Bool) (a : α) : List α → List α
  | [] => [a]
  | b :: bs => if le a b then a :: b :: bs else b :: insertSorted le a bs

/-- The SQL ORDER BY of the listing queries, modelled as a sort of the
matching rows by the comparison (SQL prescribes no particular order among
ties, so any sort consistent with the comparison is a faithful model). -/
def orderRows {α : Type} (le : α → α → Bool) : List α → List α
  | [] => []
  | a :: as => insertSorted le a (orderRows le as)

/-- Math.ceil of the quotient of two natural numbers, as computed by
totalPages = Math.ceil(totalVideos / pageSize) for a positive pageSize. -/
def jsCeilDiv (t s : Nat) : Nat :=
  (t + s - 1) / s

/-- The pagination metadata object returned by getAllVideos. -/
structure Pagination where
  currentPage : Nat
  totalPages : Nat
  totalVideos : Nat
  pageSize : Nat
deriving DecidableEq, Repr

/-- The result object of getAllVideos. -/
structure VideosPage where
  videos : List Video
  pagination : Pagination
deriving DecidableEq, Repr

/-- Embedding of getAllVideos (src/unnamed/part_005 lines 155-202) over an
explicit list of video rows: count the rows matching the where condition,
compute the page count, and select the page of at most pageSize rows
after the OFFSET of (pageNumber - 1) * pageSize rows in the sort order. -/
def getAllVideos (videoDb : List Video) (currentUserId : Option String)
    (searchQuery : String) (sortFilter : Option String)
    (pageNumber pageSize : Nat) : VideosPage :=
  let matching := videoDb.filter (whereCondition currentUserId searchQuery)
  let totalVideos := matching.length
  let totalPages := jsCeilDiv totalVideos pageSize
  let sorted := orderRows (orderClause sortFilter) matching
  { videos := (sorted.drop ((pageNumber - 1) * pageSize)).take pageSize
  , pagination :=
      { currentPage := pageNumber
      , totalPages := totalPages
      , totalVideos := totalVideos
      , pageSize := pageSize } }

/-- The conditions array of getAllVideosByUser (src/unnamed/part_005 lines
297-301) after .filter(Boolean): the ownership test userIdParameter ===
currentUserId decides whether the visibility condition is present, and a
truthy trimmed search query adds the ILIKE condition on the raw title. -/
def byUserConditions (userIdParameter : String) (currentUserId : Option String)
    (searchQuery : String) (v : Video) : Bool :=
  let isOwner := currentUserId == some userIdParameter
  (v.userId == userIdParameter) &&
  (if isOwner then true else v.visibility == "public") &&
  (if trimChars searchQuery.toList ≠ [] then ilikeContains v.title searchQuery else true)

/-- The result object of getAllVideosByUser. -/
structure UserVideos where
  user : UserRec
  videos : List Video
  count : Nat
deriving DecidableEq, Repr

/-- Embedding of getAllVideosByUser (src/unnamed/part_005 lines 275-313)
over explicit video and user tables: look up the requested user (throwing
"User not found" when absent), then return that user's rows filtered by
the conditions array in the sort order. -/
def getAllVideosByUser (videoDb : List Video) (userDb : List UserRec)
    (userIdParameter : String) (currentUserId : Option String)
    (searchQuery : String) (sortFilter : Option String) :
    Except String UserVideos :=
  match userDb.find? (fun u => u.id == userIdParameter) with
  | none => Except.error "User not found"
  | some userInfo =>
      let rows := orderRows (orderClause sortFilter)
        (videoDb.filter (byUserConditions userIdParameter currentUserId searchQuery))
      Except.ok { user := userInfo, videos := rows, count := rows.length }

/- ---------------------------------------------------------------
   Observers used by the theorems
   --------------------------------------------------------------- -/

/-- The pairs of a parameter list carrying a given key, in order. -/
def paramsOfKey (params : SearchParams) (k : String) : SearchParams :=
  params.filter (fun p => p.1 == k)

/-- A time string originates from the pool L of input lines when some line
of L matches the timestamp pattern with that HH:MM:SS capture group. -/
def timeFromLines (L : List (List Char)) (s : String) : Prop :=
  ∃ l ∈ L, ∃ g, findTimestamp (trimChars l) = some g ∧ s = String.mk g

/-- Every word of ws is the trimmed form of some non-empty input line of
the pool L that does not match the timestamp pattern. -/
def textWordsFromLines (L : List (List Char)) (ws : List String) : Prop :=
  ∀ w ∈ ws, ∃ l ∈ L,
    trimChars l ≠ [] ∧ findTimestamp (trimChars l) = none ∧ w = String.mk (trimChars l)

/-- A produced entry is well-formed relative to the pool L of input lines:
its time comes from a timestamp line of L and its text is the space-join
of one or more non-empty non-timestamp lines of L. -/
def entryOk (L : List (List Char)) (e : TranscriptEntry) : Prop :=
  timeFromLines L e.time ∧
    ∃ ws, ws ≠ [] ∧ e.text = joinSpace ws ∧ textWordsFromLines L ws

/-- Invariant of the parseTranscript loop relative to the pool L of input
lines: every produced entry is well-formed, the pending start time comes
from a timestamp line of L, and the pending text lines come from
non-timestamp lines of L. -/
def parseStateInv (L : List (List Char)) (st : ParseState) : Prop :=
  (∀ e ∈ st.result, entryOk L e) ∧
  (∀ s, st.startTime = some s → timeFromLines L s) ∧
  textWordsFromLines L st.tempText

/- ===============================================================
   Theorems
   =============================================================== -/

/-- C2: for every async function fn and every argument, the wrapped
function built by withErrorHandling never rejects; when fn resolves with
r it resolves with r, and when fn rejects it resolves with the thrown
Error's message string, or with "Unknown error occurred" when the thrown
value is not an Error, in place of a value of the declared result type. -/
theorem C2_withErrorHandling {A T : Type} (fn : A → Except Thrown T) (args : A) :
    (∃ v, withErrorHandling fn args = Except.ok v) ∧
    (∀ r, fn args = Except.ok r →
      withErrorHandling fn args = Except.ok (Sum.inl r)) ∧
    (∀ m, fn args = Except.error (Thrown.error m) →
      withErrorHandling fn args = Except.ok (Sum.inr m)) ∧
    (fn args = Except.error Thrown.nonError →
      withErrorHandling fn args = Except.ok (Sum.inr "Unknown error occurred")) := by
  unfold withErrorHandling
  refine ⟨?_, ?_, ?_, ?_⟩
  · cases h : fn args <;> exact ⟨_, rfl⟩
  · intro r h; rw [h]
  · intro m h; rw [h]; rfl
  · intro h; rw [h]; rfl

/-- Witness for C2 at a function that throws an Error with message "boom"
on the unit argument. -/
theorem C2_witness :
    withErrorHandling (fun _ : Unit => (Except.error (Thrown.error "boom") : Except Thrown Nat)) ()
      = Except.ok (Sum.inr "boom") :=
  (C2_withErrorHandling (fun _ : Unit => (Except.error (Thrown.error "boom") : Except Thrown Nat)) ()).2.2.1
    "boom" rfl

/-- C7: createAudioMixer returns null exactly when hasDisplayAudio is
false and micStream is null; otherwise it returns a destination node into
which the display stream is connected through a gain node with value 0.7
when hasDisplayAudio is true, and the microphone stream is connected
through a gain node with value 1.5 when micStream is non-null. -/
theorem C7_createAudioMixer (displayStream : MediaStream)
    (micStream : Option MediaStream) (hasDisplayAudio : Bool) :
    (createAudioMixer displayStream micStream hasDisplayAudio = none ↔
      (hasDisplayAudio = false ∧ micStream = none)) ∧
    (∀ d, createAudioMixer displayStream micStream hasDisplayAudio = some d →
      (((StreamTag.display, displayGain) ∈ d.connections) ↔ hasDisplayAudio = true) ∧
      (((StreamTag.mic, micGain) ∈ d.connections) ↔ micStream.isSome = true)) := by
  cases hasDisplayAudio <;> cases micStream <;> simp [createAudioMixer]

/-- Witness for C7 with no display audio and a present microphone stream. -/
theorem C7_witness :
    (StreamTag.mic, micGain) ∈
      (MixerDestination.mk [(StreamTag.mic, micGain)]).connections :=
  ((C7_createAudioMixer (MediaStream.mk []) (some (MediaStream.mk [])) false).2
    (MixerDestination.mk [(StreamTag.mic, micGain)]) rfl).2.mpr rfl

/-- C8: cleanupRecording calls stop() on the recorder exactly when the
recorder is non-null and its state is not "inactive", and calls stop() on
every track of the combined stream and of every original stream;
resetRecording performs that cleanup, additionally revokes the recorded
video object URL exactly when one exists, and restores the hook state to
its initial value. -/
theorem C8_cleanup_reset (recorder : Option MediaRecorder)
    (stream : Option MediaStream) (originalStreams : List MediaStream)
    (st : RecordingState) :
    ((cleanupRecording recorder stream originalStreams).recorderStopped = true ↔
      ∃ r, recorder = some r ∧ r.state ≠ RecorderState.inactive) ∧
    (∀ t, t ∈ (cleanupRecording recorder stream originalStreams).stoppedTracks ↔
      ((∃ s, stream = some s ∧ t ∈ s.tracks) ∨ ∃ s ∈ originalStreams, t ∈ s.tracks)) ∧
    ((resetRecording st recorder stream originalStreams).cleanup =
      cleanupRecording recorder stream originalStreams) ∧
    ((resetRecording st recorder stream originalStreams).revokedUrl =
      if st.recordedVideoUrl = "" then none else some st.recordedVideoUrl) ∧
    ((resetRecording st recorder stream originalStreams).newState =
      initialRecordingState) := by
  refine ⟨?_, ?_, rfl, ?_, rfl⟩
  · cases recorder with
    | none => simp [cleanupRecording]
    | some r => simp [cleanupRecording]
  · intro t
    cases stream with
    | none => simp [cleanupRecording, List.mem_flatten]
    | some s => simp [cleanupRecording, List.mem_flatten]
  · simp only [resetRecording]
    by_cases h : st.recordedVideoUrl = "" <;> simp [h]

/-- Witness for C8: a recorder in the recording state is stopped. -/
theorem C8_witness :
    (cleanupRecording (some (MediaRecorder.mk RecorderState.recording)) none []).recorderStopped = true :=
  (C8_cleanup_reset (some (MediaRecorder.mk RecorderState.recording)) none []
      initialRecordingState).1.mpr
    ⟨MediaRecorder.mk RecorderState.recording, rfl, by decide⟩

/-- C9: apiFetch rejects whenever the HTTP response has ok = false; when
the response is ok it resolves to the boolean true without reading the
response body if the method is "DELETE" or expectJson is false, and
otherwise resolves to the JSON-parsed response body. -/
theorem C9_apiFetch {α : Type} (method : String) (expectJson : Bool)
    (response : FetchResponse α) :
    (response.ok = false →
      ∃ e, apiFetch method expectJson response = Except.error e) ∧
    (response.ok = true → (method = "DELETE" ∨ expectJson = false) →
      apiFetch method expectJson response =
        Except.ok { value := ApiValue.boolTrue, bodyRead := false }) ∧
    (response.ok = true → method ≠ "DELETE" → expectJson = true →
      apiFetch method expectJson response =
        Except.ok { value := ApiValue.json response.body, bodyRead := true }) := by
  refine ⟨?_, ?_, ?_⟩
  · intro h
    exact ⟨"API error [object Promise]", by simp [apiFetch, h]⟩
  · intro h hm
    rcases hm with hm | hm <;> simp [apiFetch, h, hm]
  · intro h hm he; simp [apiFetch, h, hm, he]

/-- Witness for C9: a DELETE request with an ok response resolves to the
literal true without reading the body. -/
theorem C9_witness :
    apiFetch "DELETE" true (FetchResponse.mk true (0 : Nat)) =
      Except.ok { value := ApiValue.boolTrue, bodyRead := false } :=
  (C9_apiFetch "DELETE" true (FetchResponse.mk true (0 : Nat))).2.1 rfl (Or.inl rfl)

/-- C10: if any step of startRecording throws, it resolves to false and
the hook state on that error path has isRecording false while
recordedBlob, recordedVideoUrl and recordingDuration keep their prior
values; it resolves to true exactly when every step, through the
MediaRecorder construction and its start call, succeeded. -/
theorem C10_startRecording (prior : RecordingState)
    (mediaResult : Except Unit MediaStreams) (audioResult : Except Unit Unit)
    (recorderResult : Except Unit Unit) (startResult : Except Unit Unit) :
    ((mediaResult.isOk = false ∨ audioResult.isOk = false ∨
        recorderResult.isOk = false ∨ startResult.isOk = false) →
      startRecording prior mediaResult audioResult recorderResult startResult =
        (false, { prior with isRecording := false })) ∧
    ((startRecording prior mediaResult audioResult recorderResult startResult).1 = true ↔
      (mediaResult.isOk = true ∧ audioResult.isOk = true ∧
        recorderResult.isOk = true ∧ startResult.isOk = true)) ∧
    ((startRecording prior mediaResult audioResult recorderResult startResult).1 = false →
      (startRecording prior mediaResult audioResult recorderResult startResult).2.recordedBlob
          = prior.recordedBlob ∧
      (startRecording prior mediaResult audioResult recorderResult startResult).2.recordedVideoUrl
          = prior.recordedVideoUrl ∧
      (startRecording prior mediaResult audioResult recorderResult startResult).2.recordingDuration
          = prior.recordingDuration ∧
      (startRecording prior mediaResult audioResult recorderResult startResult).2.isRecording
          = false) := by
  cases mediaResult <;> cases audioResult <;> cases recorderResult <;> cases startResult <;>
    simp [startRecording, Except.isOk, Except.toBool]

/-- Witness for C10: a denied getMediaStreams call makes startRecording
resolve to false with isRecording false and the other fields untouched. -/
theorem C10_witness :
    startRecording initialRecordingState (Except.error ()) (Except.ok ())
        (Except.ok ()) (Except.ok ()) =
      (false, { initialRecordingState with isRecording := false }) :=
  (C10_startRecording initialRecordingState (Except.error ()) (Except.ok ())
      (Except.ok ()) (Except.ok ())).1 (Or.inl rfl)

/-- C4: for 1 <= currentPage <= totalPages, generatePagination returns
exactly the array of all pages 1..totalPages when totalPages <= 7, and
otherwise an array of exactly 7 entries that starts with 1, ends with
totalPages, contains currentPage, whose numeric entries are strictly
increasing page numbers within the range 1..totalPages, and whose "..."
entries mark exactly the omitted gaps. -/
theorem C4_generatePagination (cp tp : Int) (h1 : 1 ≤ cp) (h2 : cp ≤ tp) :
    (tp ≤ 7 → generatePagination cp tp =
      (List.range tp.toNat).map (fun i => PageEntry.num ((i : Int) + 1))) ∧
    (7 < tp →
      (generatePagination cp tp).length = 7 ∧
      (generatePagination cp tp).head? = some (PageEntry.num 1) ∧
      (generatePagination cp tp).getLast? = some (PageEntry.num tp) ∧
      PageEntry.num cp ∈ generatePagination cp tp ∧
      (pageNums (generatePagination cp tp)).Chain' (· < ·) ∧
      (∀ n ∈ pageNums (generatePagination cp tp), 1 ≤ n ∧ n ≤ tp) ∧
      marksGaps (generatePagination cp tp)) := by
  constructor
  · intro h
    simp [generatePagination, h]
  · intro h
    have h7 : ¬tp ≤ 7 := by omega
    by_cases hc : cp ≤ 3
    · refine ⟨?_, ?_, ?_, ?_, ?_, ?_, ?_⟩ <;>
        simp [generatePagination, h7, hc, pageNums, marksGaps] <;> omega
    · by_cases hd : tp - 2 ≤ cp
      · refine ⟨?_, ?_, ?_, ?_, ?_, ?_, ?_⟩ <;>
          simp [generatePagination, h7, hc, hd, pageNums, marksGaps] <;> omega
      · refine ⟨?_, ?_, ?_, ?_, ?_, ?_, ?_⟩ <;>
          simp [generatePagination, h7, hc, hd, pageNums, marksGaps] <;> omega

/-- Witness for C4 at currentPage 5 of 20 total pages. -/
theorem C4_witness : (generatePagination 5 20).length = 7 :=
  ((C4_generatePagination 5 20 (by decide) (by decide)).2 (by decide)).1

/-- Unfolding lemma: paramsOfKey on a cons. -/
theorem paramsOfKey_cons (p : String × String) (ps : SearchParams) (k : String) :
    paramsOfKey (p :: ps) k =
      if p.1 = k then p :: paramsOfKey ps k else paramsOfKey ps k := by
  by_cases h : p.1 = k <;> simp [paramsOfKey, List.filter_cons, h]

/-- Unfolding lemma: deleteParam on a cons. -/
theorem deleteParam_cons (p : String × String) (ps : SearchParams) (k : String) :
    deleteParam (p :: ps) k =
      if p.1 = k then deleteParam ps k else p :: deleteParam ps k := by
  by_cases h : p.1 = k <;> simp [deleteParam, List.filter_cons, h]

/-- Unfolding lemma: setParam on a cons. -/
theorem setParam_cons (p : String × String) (ps : SearchParams) (k v : String) :
    setParam (p :: ps) k v =
      if p.1 = k then (k, v) :: deleteParam ps k else p :: setParam ps k v := by
  by_cases h : p.1 = k <;> simp [setParam, h]

/-- Deleting a key removes every pair with that key. -/
theorem paramsOfKey_deleteParam_self (ps : SearchParams) (k : String) :
    paramsOfKey (deleteParam ps k) k = [] := by
  induction ps with
  | nil => rfl
  | cons p rest ih =>
      rw [deleteParam_cons]
      by_cases h : p.1 = k
      · simpa [h] using ih
      · simpa [paramsOfKey_cons, h] using ih

/-- Deleting one key leaves the pairs with any other key untouched. -/
theorem paramsOfKey_deleteParam_ne (ps : SearchParams) {j k : String}
    (hjk : j ≠ k) : paramsOfKey (deleteParam ps j) k = paramsOfKey ps k := by
  induction ps with
  | nil => rfl
  | cons p rest ih =>
      rw [deleteParam_cons, paramsOfKey_cons]
      by_cases h : p.1 = j
      · have hpk : ¬p.1 = k := by rw [h]; exact hjk
        simpa [h, hpk, hjk] using ih
      · by_cases h2 : p.1 = k <;>
          simp [h, h2, hjk, Ne.symm hjk, paramsOfKey_cons, ih]

/-- Setting a key leaves exactly one pair with that key, carrying the new
value. -/
theorem paramsOfKey_setParam_self (ps : SearchParams) (k v : String) :
    paramsOfKey (setParam ps k v) k = [(k, v)] := by
  induction ps with
  | nil => simp [setParam, paramsOfKey, List.filter_cons]
  | cons p rest ih =>
      rw [setParam_cons]
      by_cases h : p.1 = k
      · simp [h, paramsOfKey_cons, paramsOfKey_deleteParam_self]
      · simpa [h, paramsOfKey_cons] using ih

/-- Setting one key leaves the pairs with any other key untouched. -/
theorem paramsOfKey_setParam_ne (ps : SearchParams) {j k : String} (v : String)
    (hjk : j ≠ k) : paramsOfKey (setParam ps j v) k = paramsOfKey ps k := by
  induction ps with
  | nil => simp [setParam, paramsOfKey, List.filter_cons, hjk]
  | cons p rest ih =>
      rw [setParam_cons]
      by_cases h : p.1 = j
      · have hpk : ¬p.1 = k := by rw [h]; exact hjk
        simp [h, hjk, hpk, Ne.symm hjk, paramsOfKey_cons,
          paramsOfKey_deleteParam_ne rest hjk]
      · by_cases h2 : p.1 = k <;>
          simp [h, h2, hjk, Ne.symm hjk, paramsOfKey_cons, ih]

/-- One step of the update loop, as an equation. -/
theorem applyUpdates_cons (ps : SearchParams) (name : String)
    (value : Option String) (rest : List (String × Option String)) :
    applyUpdates ps ((name, value) :: rest) =
      applyUpdates
        (match value with
          | some v => if v == "" then deleteParam ps name else setParam ps name v
          | none => deleteParam ps name)
        rest := rfl

/-- The update loop leaves the pairs of every key it never names untouched. -/
theorem paramsOfKey_applyUpdates_not_mem (ups : List (String × Option String))
    (ps : SearchParams) (k : String) (h : ∀ vo, (k, vo) ∉ ups) :
    paramsOfKey (applyUpdates ps ups) k = paramsOfKey ps k := by
  induction ups generalizing ps with
  | nil => rfl
  | cons u rest ih =>
      obtain ⟨name, value⟩ := u
      have hnk : name ≠ k := by
        intro he
        exact h value (by rw [← he]; exact List.mem_cons_self _ _)
      have hrest : ∀ vo, (k, vo) ∉ rest := by
        intro vo hm
        exact h vo (List.mem_cons_of_mem _ hm)
      rw [applyUpdates_cons, ih _ hrest]
      cases value with
      | none => exact paramsOfKey_deleteParam_ne ps hnk
      | some v =>
          by_cases hv : v = ""
          · simp only [hv]
            simpa using paramsOfKey_deleteParam_ne ps hnk
          · have hvb : (v == "") = false := by simp [hv]
            simp only [hvb]
            simpa using paramsOfKey_setParam_ne ps v hnk

/-- After the update loop, a key updated to a truthy (non-empty) value is
present exactly once, with that value, provided the updates record names
each key at most once. -/
theorem paramsOfKey_applyUpdates_set (ups : List (String × Option String))
    (ps : SearchParams) (k v : String) (hmem : (k, some v) ∈ ups) (hv : v ≠ "")
    (hnodup : (ups.map Prod.fst).Nodup) :
    paramsOfKey (applyUpdates ps ups) k = [(k, v)] := by
  induction ups generalizing ps with
  | nil => cases hmem
  | cons u rest ih =>
      obtain ⟨name, value⟩ := u
      rw [List.map_cons, List.nodup_cons] at hnodup
      obtain ⟨hhead, htail⟩ := hnodup
      rw [applyUpdates_cons]
      rcases List.mem_cons.mp hmem with hm | hm
      · simp only [Prod.mk.injEq] at hm
        obtain ⟨rfl, rfl⟩ := hm
        have hknot : ∀ vo, (k, vo) ∉ rest := by
          intro vo hmm
          exact hhead (List.mem_map.mpr ⟨(k, vo), hmm, rfl⟩)
        have hvb : (v == "") = false := by simp [hv]
        simp only [hvb, Bool.false_eq_true, if_false]
        rw [paramsOfKey_applyUpdates_not_mem rest _ _ hknot,
          paramsOfKey_setParam_self]
      · exact ih _ hm htail

/-- After the update loop, a key updated to a falsy value (null, undefined
or the empty string) is absent, provided the updates record names each key
at most once. -/
theorem paramsOfKey_applyUpdates_absent (ups : List (String × Option String))
    (ps : SearchParams) (k : String)
    (hmem : (k, none) ∈ ups ∨ (k, some "") ∈ ups)
    (hnodup : (ups.map Prod.fst).Nodup) :
    paramsOfKey (applyUpdates ps ups) k = [] := by
  induction ups generalizing ps with
  | nil => rcases hmem with hm | hm <;> cases hm
  | cons u rest ih =>
      obtain ⟨name, value⟩ := u
      rw [List.map_cons, List.nodup_cons] at hnodup
      obtain ⟨hhead, htail⟩ := hnodup
      rw [applyUpdates_cons]
      rcases hmem with hm | hm <;> rcases List.mem_cons.mp hm with hm2 | hm2
      · simp only [Prod.mk.injEq] at hm2
        obtain ⟨rfl, rfl⟩ := hm2
        have hknot : ∀ vo, (k, vo) ∉ rest := by
          intro vo hmm
          exact hhead (List.mem_map.mpr ⟨(k, vo), hmm, rfl⟩)
        rw [paramsOfKey_applyUpdates_not_mem rest _ _ hknot,
          paramsOfKey_deleteParam_self]
      · exact ih _ (Or.inl hm2) htail
      · simp only [Prod.mk.injEq] at hm2
        obtain ⟨rfl, rfl⟩ := hm2
        have hknot : ∀ vo, (k, vo) ∉ rest := by
          intro vo hmm
          exact hhead (List.mem_map.mpr ⟨(k, vo), hmm, rfl⟩)
        show paramsOfKey (applyUpdates (deleteParam ps k) rest) k = []
        rw [paramsOfKey_applyUpdates_not_mem rest _ _ hknot,
          paramsOfKey_deleteParam_self]
      · exact ih _ (Or.inr hm2) htail

/-- C6: updateURLParams returns basePath, a question mark, and the
serialization of the parameter set in which every key of updates with a
truthy value is set to that value, every key of updates with a falsy
value (null, undefined or the empty string) is absent, and every
parameter of currentParams whose key is not named in updates keeps its
original value; the currentParams argument itself is left unmodified.
The hypothesis reflects that updates is a JavaScript record, naming each
key at most once. -/
theorem C6_updateURLParams (currentParams : SearchParams)
    (updates : List (String × Option String)) (basePath : String)
    (hnodup : (updates.map Prod.fst).Nodup) :
    ((updateURLParams currentParams updates basePath).1 =
      basePath ++ "?" ++ serializeParams (applyUpdates currentParams updates)) ∧
    ((updateURLParams currentParams updates basePath).2 = currentParams) ∧
    (∀ k v, (k, some v) ∈ updates → v ≠ "" →
      paramsOfKey (applyUpdates currentParams updates) k = [(k, v)]) ∧
    (∀ k, ((k, none) ∈ updates ∨ (k, some "") ∈ updates) →
      paramsOfKey (applyUpdates currentParams updates) k = []) ∧
    (∀ k, (∀ vo, (k, vo) ∉ updates) →
      paramsOfKey (applyUpdates currentParams updates) k = paramsOfKey currentParams k) :=
  ⟨rfl, rfl,
    fun _ v hm hv => paramsOfKey_applyUpdates_set updates currentParams _ v hm hv hnodup,
    fun _ hm => paramsOfKey_applyUpdates_absent updates currentParams _ hm hnodup,
    fun _ h => paramsOfKey_applyUpdates_not_mem updates currentParams _ h⟩

/-- Witness for C6: updating key a to 3 and deleting key b over the
parameters a=1, b=2, c=9 leaves exactly a=3 under key a. -/
theorem C6_witness :
    paramsOfKey
      (applyUpdates [("a", "1"), ("b", "2"), ("c", "9")]
        [("a", some "3"), ("b", none)]) "a" = [("a", "3")] :=
  (C6_updateURLParams [("a", "1"), ("b", "2"), ("c", "9")]
      [("a", some "3"), ("b", none)] "/" (by decide)).2.2.1
    "a" "3" (List.mem_cons_self _ _) (by decide)

/-- Inserting an element permutes consing it. -/
theorem insertSorted_perm {α : Type} (le : α → α → Bool) (a : α) (l : List α) :
    (insertSorted le a l).Perm (a :: l) := by
  induction l with
  | nil => exact List.Perm.refl _
  | cons b bs ih =>
      simp only [insertSorted]
      by_cases h : le a b = true
      · simp [h]
      · simp only [h, if_false]
        exact ((ih.cons b).trans (List.Perm.swap a b bs))

/-- The ORDER BY model permutes its input. -/
theorem orderRows_perm {α : Type} (le : α → α → Bool) (l : List α) :
    (orderRows le l).Perm l := by
  induction l with
  | nil => exact List.Perm.refl _
  | cons a as ih =>
      exact (insertSorted_perm le a (orderRows le as)).trans (ih.cons a)

/-- Membership is preserved by the ORDER BY model. -/
theorem mem_orderRows {α : Type} {le : α → α → Bool} {l : List α} {a : α} :
    a ∈ orderRows le l ↔ a ∈ l :=
  (orderRows_perm le l).mem_iff

/-- A row satisfying the whereCondition satisfies the visibility condition. -/
theorem whereCondition_canSee {currentUserId : Option String}
    {searchQuery : String} {v : Video}
    (h : whereCondition currentUserId searchQuery v = true) :
    canSeeTheVideos currentUserId v = true := by
  unfold whereCondition at h
  split at h
  · simp only [Bool.and_eq_true] at h
    exact h.1
  · exact h

/-- C1: every record returned by getAllVideos is public or belongs to the
session user, and getAllVideosByUser adds the condition visibility =
"public" exactly when the requested user id differs from the current
session user's id: its returned records all belong to the requested user
and are public whenever the ids differ, and the query condition it uses
drops the visibility conjunct precisely in the owner case. -/
theorem C1_visibility (videoDb : List Video) (userDb : List UserRec)
    (currentUserId : Option String) (searchQuery : String)
    (sortFilter : Option String) (pageNumber pageSize : Nat)
    (userIdParameter : String) :
    (∀ v ∈ (getAllVideos videoDb currentUserId searchQuery sortFilter
        pageNumber pageSize).videos,
      v.visibility = "public" ∨ currentUserId = some v.userId) ∧
    (∀ res, getAllVideosByUser videoDb userDb userIdParameter currentUserId
        searchQuery sortFilter = Except.ok res →
      ∀ v ∈ res.videos,
        v.userId = userIdParameter ∧
        (currentUserId ≠ some userIdParameter → v.visibility = "public")) ∧
    (∀ v, byUserConditions userIdParameter (some userIdParameter) searchQuery v =
      ((v.userId == userIdParameter) &&
        (if trimChars searchQuery.toList ≠ [] then ilikeContains v.title searchQuery
         else true))) ∧
    (∀ v, currentUserId ≠ some userIdParameter →
      byUserConditions userIdParameter currentUserId searchQuery v =
        ((v.userId == userIdParameter) && (v.visibility == "public") &&
          (if trimChars searchQuery.toList ≠ [] then ilikeContains v.title searchQuery
           else true))) := by
  refine ⟨?_, ?_, ?_, ?_⟩
  · intro v hv
    simp only [getAllVideos] at hv
    have hv2 := List.mem_of_mem_drop (List.mem_of_mem_take hv)
    have hv3 := mem_orderRows.mp hv2
    have hcond := (List.mem_filter.mp hv3).2
    have hsee := whereCondition_canSee hcond
    unfold canSeeTheVideos at hsee
    cases currentUserId with
    | none =>
        left
        simpa using hsee
    | some u =>
        simp only [Bool.or_eq_true] at hsee
        rcases hsee with h | h
        · exact Or.inl (by simpa using h)
        · right
          have hu : v.userId = u := by simpa using h
          rw [hu]
  · intro res hres v hv
    unfold getAllVideosByUser at hres
    cases hfind : userDb.find? (fun u => u.id == userIdParameter) with
    | none => rw [hfind] at hres; cases hres
    | some userInfo =>
        rw [hfind] at hres
        cases hres
        have hv3 := mem_orderRows.mp hv
        have hcond := (List.mem_filter.mp hv3).2
        unfold byUserConditions at hcond
        simp only [Bool.and_eq_true] at hcond
        obtain ⟨⟨hown, hvis⟩, hsearch⟩ := hcond
        refine ⟨by simpa using hown, ?_⟩
        intro hne
        have hob : (currentUserId == some userIdParameter) = false := by
          simpa using hne
        rw [hob] at hvis
        simpa using hvis
  · intro v
    simp [byUserConditions]
  · intro v hne
    have hob : (currentUserId == some userIdParameter) = false := by
      simpa using hne
    simp [byUserConditions, hob, Bool.and_assoc]

/-- Witness for C1: with a session for user u1, a private video of u1 is
returned by getAllVideos and indeed belongs to the session user. -/
theorem C1_witness :
    (Video.mk "v1" "b1" "t" "u1" "private" 0 0).visibility = "public" ∨
      (some "u1" : Option String) = some (Video.mk "v1" "b1" "t" "u1" "private" 0 0).userId :=
  (C1_visibility [Video.mk "v1" "b1" "t" "u1" "private" 0 0] [] (some "u1") ""
      none 1 8 "u1").1 (Video.mk "v1" "b1" "t" "u1" "private" 0 0) (by decide)

/-- Arithmetic characterization of the JavaScript ceiling division. -/
theorem jsCeilDiv_bounds (t s : Nat) (hs : 1 ≤ s) :
    t ≤ jsCeilDiv t s * s ∧ jsCeilDiv t s * s < t + s := by
  have hdm := Nat.div_add_mod (t + s - 1) s
  have hlt : (t + s - 1) % s < s := Nat.mod_lt _ (by omega)
  have hq : jsCeilDiv t s * s = s * ((t + s - 1) / s) := by
    unfold jsCeilDiv
    exact Nat.mul_comm _ _
  rw [hq]
  omega

/-- C3: for pageNumber >= 1 and pageSize >= 1, getAllVideos returns at
most pageSize records, namely the take of pageSize records after dropping
(pageNumber - 1) * pageSize records matching the visibility-and-search
condition in the selected sort order, and its pagination metadata echoes
currentPage and pageSize, counts the matching records, and reports
totalPages equal to the ceiling of totalVideos / pageSize (stated by the
characterizing inequalities of the ceiling). -/
theorem C3_getAllVideos_pagination (videoDb : List Video)
    (currentUserId : Option String) (searchQuery : String)
    (sortFilter : Option String) (pageNumber pageSize : Nat)
    (hpn : 1 ≤ pageNumber) (hps : 1 ≤ pageSize) :
    (getAllVideos videoDb currentUserId searchQuery sortFilter pageNumber
        pageSize).videos.length ≤ pageSize ∧
    (getAllVideos videoDb currentUserId searchQuery sortFilter pageNumber
        pageSize).videos =
      ((orderRows (orderClause sortFilter)
          (videoDb.filter (whereCondition currentUserId searchQuery))).drop
        ((pageNumber - 1) * pageSize)).take pageSize ∧
    (getAllVideos videoDb currentUserId searchQuery sortFilter pageNumber
        pageSize).pagination.currentPage = pageNumber ∧
    (getAllVideos videoDb currentUserId searchQuery sortFilter pageNumber
        pageSize).pagination.pageSize = pageSize ∧
    (getAllVideos videoDb currentUserId searchQuery sortFilter pageNumber
        pageSize).pagination.totalVideos =
      (videoDb.filter (whereCondition currentUserId searchQuery)).length ∧
    (getAllVideos videoDb currentUserId searchQuery sortFilter pageNumber
        pageSize).pagination.totalVideos ≤
      (getAllVideos videoDb currentUserId searchQuery sortFilter pageNumber
        pageSize).pagination.totalPages * pageSize ∧
    (getAllVideos videoDb currentUserId searchQuery sortFilter pageNumber
        pageSize).pagination.totalPages * pageSize <
      (getAllVideos videoDb currentUserId searchQuery sortFilter pageNumber
        pageSize).pagination.totalVideos + pageSize := by
  refine ⟨?_, rfl, rfl, rfl, rfl, ?_, ?_⟩
  · exact List.length_take_le _ _
  · exact (jsCeilDiv_bounds _ pageSize hps).1
  · exact (jsCeilDiv_bounds _ pageSize hps).2

/-- Witness for C3 at an empty video table, page 1 of size 8. -/
theorem C3_witness : (getAllVideos [] none "" none 1 8).videos.length ≤ 8 :=
  (C3_getAllVideos_pagination [] none "" none 1 8 (by decide) (by decide)).1

/-- C5 counterexample: on the transcript consisting of the non-empty line
"hello", a timestamp line, and the line "world", parseTranscript returns
one entry whose text is "hello world" rather than "world": the non-empty
line appearing before the first timestamp line does contribute to an
entry, and the entry's text is not the sequence of lines after its own
timestamp line, contradicting the claim. -/
theorem C5_counterexample :
    parseTranscript "hello\n00:00:00.000 --> 00:00:01.000\nworld" =
      [{ time := "00:00:00", text := "hello world" }] ∧
    parseTranscript "hello\n00:00:00.000 --> 00:00:01.000\nworld" ≠
      [{ time := "00:00:00", text := "world" }] := by
  constructor
  · decide
  · decide

/-- Appending a well-formed entry preserves well-formedness of the result
list. -/
theorem entryOk_append {L : List (List Char)} {res : List TranscriptEntry}
    {s : String} {ws : List String} (hres : ∀ e ∈ res, entryOk L e)
    (hs : timeFromLines L s) (hws : textWordsFromLines L ws) (hne : ws ≠ []) :
    ∀ e ∈ res ++ [{ time := s, text := joinSpace ws }], entryOk L e := by
  intro e he
  rcases List.mem_append.mp he with h | h
  · exact hres e h
  · simp only [List.mem_singleton] at h
    subst h
    exact ⟨hs, ws, hne, rfl, hws⟩

/-- The empty pending-text list trivially originates from the pool. -/
theorem textWordsFromLines_nil {L : List (List Char)} :
    textWordsFromLines L [] := by
  intro w hw
  cases hw

/-- Appending the trimmed form of a non-empty non-timestamp line of the
pool preserves the origin property of the pending text. -/
theorem textWordsFromLines_append {L : List (List Char)} {ws : List String}
    {l : List Char} (h : textWordsFromLines L ws) (hl : l ∈ L)
    (hne : trimChars l ≠ []) (hnf : findTimestamp (trimChars l) = none) :
    textWordsFromLines L (ws ++ [String.mk (trimChars l)]) := by
  intro w hw
  rcases List.mem_append.mp hw with h2 | h2
  · exact h w h2
  · simp only [List.mem_singleton] at h2
    subst h2
    exact ⟨l, hl, hne, hnf, rfl⟩

/-- One loop iteration of parseTranscript preserves the invariant when the
processed line belongs to the pool. -/
theorem parseLine_inv {L : List (List Char)} {st : ParseState} {l : List Char}
    (hl : l ∈ L) (h : parseStateInv L st) : parseStateInv L (parseLine st l) := by
  obtain ⟨res0, tt0, st0⟩ := st
  unfold parseStateInv at h ⊢
  obtain ⟨hres, htime, htemp⟩ := h
  simp only at hres htime htemp
  unfold parseLine
  cases hts : findTimestamp (trimChars l) with
  | some g =>
      have htg : timeFromLines L (String.mk g) := ⟨l, hl, g, hts, rfl⟩
      simp only [hts]
      cases st0 with
      | some s =>
          have hs : timeFromLines L s := htime s rfl
          by_cases hne : tt0 = []
          · subst hne
            simp only [ne_eq, not_true_eq_false, if_false, List.length_nil]
            refine ⟨hres, ?_, textWordsFromLines_nil⟩
            intro s2 hs2
            injection hs2 with h2
            exact h2 ▸ htg
          · simp only [ne_eq, hne, not_false_eq_true, if_true, List.length_nil]
            refine ⟨entryOk_append hres hs htemp hne, ?_, textWordsFromLines_nil⟩
            intro s2 hs2
            injection hs2 with h2
            exact h2 ▸ htg
      | none =>
          by_cases hlen : tt0.length ≥ 3
          · simp only [hlen, if_true]
            have hne : tt0 ≠ [] := by
              intro he
              rw [he] at hlen
              simp at hlen
            refine ⟨entryOk_append hres htg htemp hne, ?_, textWordsFromLines_nil⟩
            intro s2 hs2
            cases hs2
          · simp only [hlen, if_false]
            refine ⟨hres, ?_, htemp⟩
            intro s2 hs2
            injection hs2 with h2
            exact h2 ▸ htg
  | none =>
      simp only [hts]
      by_cases htr : trimChars l = []
      · simp only [htr, ne_eq, not_true_eq_false, if_false]
        cases st0 with
        | some s =>
            have hs : timeFromLines L s := htime s rfl
            by_cases hlen : tt0.length ≥ 3
            · simp only [hlen, if_true]
              have hne : tt0 ≠ [] := by
                intro he
                rw [he] at hlen
                simp at hlen
              refine ⟨entryOk_append hres hs htemp hne, ?_, textWordsFromLines_nil⟩
              intro s2 hs2
              cases hs2
            · simp only [hlen, if_false]
              exact ⟨hres, htime, htemp⟩
        | none => exact ⟨hres, htime, htemp⟩
      · have htw := textWordsFromLines_append htemp hl htr hts
        simp only [ne_eq, htr, not_false_eq_true, if_true]
        cases st0 with
        | some s =>
            have hs : timeFromLines L s := htime s rfl
            by_cases hlen : (tt0 ++ [String.mk (trimChars l)]).length ≥ 3
            · simp only [hlen, if_true]
              have hne : tt0 ++ [String.mk (trimChars l)] ≠ [] := by simp
              refine ⟨entryOk_append hres hs htw hne, ?_, textWordsFromLines_nil⟩
              intro s2 hs2
              cases hs2
            · simp only [hlen, if_false]
              exact ⟨hres, htime, htw⟩
        | none => exact ⟨hres, htime, htw⟩

/-- The whole loop preserves the invariant when every processed line
belongs to the pool. -/
theorem foldl_parseLine_inv {L : List (List Char)} (ls : List (List Char))
    (st : ParseState) (hsub : ∀ l ∈ ls, l ∈ L) (h : parseStateInv L st) :
    parseStateInv L (ls.foldl parseLine st) := by
  induction ls generalizing st with
  | nil => exact h
  | cons l rest ih =>
      exact ih _ (fun x hx => hsub x (List.mem_cons_of_mem _ hx))
        (parseLine_inv (hsub l (List.mem_cons_self _ _)) h)

/-- C5 amended: every entry returned by parseTranscript takes its time
from the HH:MM:SS start component of a timestamp line of the input, and
its text is the space-join of one or more non-empty trimmed non-timestamp
input lines; because the pending-line buffer survives timestamp lines
that arrive while no start time is pending, lines before the first
timestamp line, and lines beyond the third after a flush, may carry over
into a later entry instead of never contributing. -/
theorem C5_parseTranscript_amended (transcript : String) :
    ∀ e ∈ parseTranscript transcript,
      timeFromLines (splitLines (stripWebVTT transcript.toList)) e.time ∧
      ∃ ws, ws ≠ [] ∧ e.text = joinSpace ws ∧
        textWordsFromLines (splitLines (stripWebVTT transcript.toList)) ws := by
  intro e he
  simp only [parseTranscript] at he
  have hinv : parseStateInv (splitLines (stripWebVTT transcript.toList))
      ((splitLines (stripWebVTT transcript.toList)).foldl parseLine
        { result := [], tempText := [], startTime := none }) :=
    foldl_parseLine_inv _ _ (fun _ hx => hx)
      ⟨fun e2 he2 => absurd he2 (List.not_mem_nil e2),
        fun _ hs => Option.noConfusion hs, textWordsFromLines_nil⟩
  obtain ⟨hres, htime, htemp⟩ := hinv
  cases hst : ((splitLines (stripWebVTT transcript.toList)).foldl parseLine
      { result := [], tempText := [], startTime := none }).startTime with
  | some s =>
      rw [hst] at he
      simp only at he
      by_cases hne : ((splitLines (stripWebVTT transcript.toList)).foldl parseLine
          { result := [], tempText := [], startTime := none }).tempText = []
      · rw [if_neg (by simpa using hne)] at he
        exact hres e he
      · rw [if_pos (by simpa using hne)] at he
        rcases List.mem_append.mp he with h | h
        · exact hres e h
        · simp only [List.mem_singleton] at h
          subst h
          exact ⟨htime s hst, _, hne, rfl, htemp⟩
  | none =>
      rw [hst] at he
      simp only at he
      exact hres e he

/-- Witness for the amended C5 on a two-line transcript: the single entry
produced takes its time from the timestamp line of the input. -/
theorem C5_witness :
    timeFromLines
      (splitLines (stripWebVTT ("00:00:00.000 --> 00:00:01.000\nhi" : String).toList))
      ({ time := "00:00:00", text := "hi" } : TranscriptEntry).time :=
  (C5_parseTranscript_amended "00:00:00.000 --> 00:00:01.000\nhi"
      { time := "00:00:00", text := "hi" } (by decide)).1

end SnapCast
